import Mathlib

/-!
Shallow embedding of the chip8 interpreter core (src/interpreter/instruction.rs
and src/interpreter/mod.rs) and proofs about the behaviour its specification
claims.

Modelling conventions:
* Machine integers (`u8`, `u16`) are `Nat` with explicit `% 256` / `% 4096`
  wherever the Rust code wraps (`wrapping_add`, `& 0x0FFF`, `<<`), and
  bounds hypotheses where the Rust type alone supplies the bound.
* Rust `panic!` (including out-of-bounds indexing, checked arithmetic
  overflow in debug builds, and slice-range failures) is modelled by
  `Option`: `none` means the process aborts.  No code path of this
  repository returns a recoverable error value from decode, execute or
  load, so `none` always stands for a panic, never for an `Err` result.
* `Duration` is a count of nanoseconds (`Nat`); the Rust code's timer
  reload constant is 16666667 ns (`Duration::from_nanos(16666667)`).
* `rand::random::<u8>()` is modelled by an explicit `rng` argument
  (only the `Rand` arm reads it).
* `chip8_base::Pixel` is `Bool` (XOR/AND on pixels is Bool xor/and),
  `chip8_base::Keys` is `Fin 16 → Bool`, a `Display` is the 32×64 grid.
-/

/-- Tagged instruction values, one constructor per variant of the Rust
`enum Instruction` in src/interpreter/instruction.rs (35 variants).
Register/byte/address operands are `Nat` images of the Rust `u8`/`u16`. -/
inductive Instruction where
  | Nop
  | Cls
  | Ret
  | Jmp (addr : Nat)
  | Call (addr : Nat)
  | Ske (x byte : Nat)
  | Skne (x byte : Nat)
  | Skre (x y : Nat)
  | Setr (x byte : Nat)
  | Addr (x byte : Nat)
  | Move (x y : Nat)
  | Or (x y : Nat)
  | And (x y : Nat)
  | Xor (x y : Nat)
  | Add (x y : Nat)
  | Sub (x y : Nat)
  | Shr (x y : Nat)
  | Ssub (x y : Nat)
  | Shl (x y : Nat)
  | Skrne (x y : Nat)
  | Seti (addr : Nat)
  | Jmpr (addr : Nat)
  | Rand (x byte : Nat)
  | Draw (x y n : Nat)
  | Skp (x : Nat)
  | Sknp (x : Nat)
  | Moved (x : Nat)
  | Key (x : Nat)
  | Setrd (x : Nat)
  | Setrs (x : Nat)
  | Addi (x : Nat)
  | Ldfnt (x : Nat)
  | Bcd (x : Nat)
  | Store (x : Nat)
  | Load (x : Nat)
deriving DecidableEq, Repr

/-- The four 4-bit nibbles of an opcode, high to low.  Mirrors `fn nibbles`:
`n >> 12` (no mask needed on a `u16`), `(n >> 8) & 0b1111`,
`(n >> 4) & 0b1111`, `n & 0b1111`; shifts and masks written as `/` and
`% 16` on `Nat`. -/
def nibbles (n : Nat) : Nat × Nat × Nat × Nat :=
  (n / 4096, n / 256 % 16, n / 16 % 16, n % 16)

/-- `Instruction::decode`.  The Rust function matches on the nibble tuple
`(n3, n2, n1, n0)`; each arm below is one Rust arm, in source order,
written as an ordered condition chain (first match wins, exactly the
Rust `match` semantics; `x` is `n2`, `y` is `n1`, `n` is `n0`).  The
Rust function panics on any opcode matching no arm
(`panic!("Unsupported instruction found: ...")`); that is `none` here.
`addr`/`byte` are `opcode & 0x0fff` / `opcode & 0x00ff`. -/
def Instruction.decode (opcode : Nat) : Option Instruction :=
  let addr := opcode % 4096
  let byte := opcode % 256
  match nibbles opcode with
  | (n3, n2, n1, n0) =>
    if n3 = 0 ∧ n2 = 0 ∧ n1 = 0xE ∧ n0 = 0xE then some .Ret
    else if n3 = 0 ∧ n2 = 0 ∧ n1 = 0xE ∧ n0 = 0 then some .Cls
    else if n3 = 0 then some .Nop
    else if n3 = 1 then some (.Jmp addr)
    else if n3 = 2 then some (.Call addr)
    else if n3 = 3 then some (.Ske n2 byte)
    else if n3 = 4 then some (.Skne n2 byte)
    else if n3 = 5 ∧ n0 = 0 then some (.Skre n2 n1)
    else if n3 = 6 then some (.Setr n2 byte)
    else if n3 = 7 then some (.Addr n2 byte)
    else if n3 = 8 ∧ n0 = 0 then some (.Move n2 n1)
    else if n3 = 8 ∧ n0 = 1 then some (.Or n2 n1)
    else if n3 = 8 ∧ n0 = 2 then some (.And n2 n1)
    else if n3 = 8 ∧ n0 = 3 then some (.Xor n2 n1)
    else if n3 = 8 ∧ n0 = 4 then some (.Add n2 n1)
    else if n3 = 8 ∧ n0 = 5 then some (.Sub n2 n1)
    else if n3 = 8 ∧ n0 = 6 then some (.Shr n2 n1)
    else if n3 = 8 ∧ n0 = 7 then some (.Ssub n2 n1)
    else if n3 = 8 ∧ n0 = 0xE then some (.Shl n2 n1)
    else if n3 = 9 ∧ n0 = 0 then some (.Skrne n2 n1)
    else if n3 = 0xA then some (.Seti addr)
    else if n3 = 0xB then some (.Jmpr addr)
    else if n3 = 0xC then some (.Rand n2 byte)
    else if n3 = 0xD then some (.Draw n2 n1 n0)
    else if n3 = 0xE ∧ n1 = 9 ∧ n0 = 0xE then some (.Skp n2)
    else if n3 = 0xE ∧ n1 = 0xA ∧ n0 = 1 then some (.Sknp n2)
    else if n3 = 0xF ∧ n1 = 0 ∧ n0 = 7 then some (.Moved n2)
    else if n3 = 0xF ∧ n1 = 0 ∧ n0 = 0xA then some (.Key n2)
    else if n3 = 0xF ∧ n1 = 1 ∧ n0 = 5 then some (.Setrd n2)
    else if n3 = 0xF ∧ n1 = 1 ∧ n0 = 8 then some (.Setrs n2)
    else if n3 = 0xF ∧ n1 = 1 ∧ n0 = 0xE then some (.Addi n2)
    else if n3 = 0xF ∧ n1 = 2 ∧ n0 = 9 then some (.Ldfnt n2)
    else if n3 = 0xF ∧ n1 = 3 ∧ n0 = 3 then some (.Bcd n2)
    else if n3 = 0xF ∧ n1 = 5 ∧ n0 = 5 then some (.Store n2)
    else if n3 = 0xF ∧ n1 = 6 ∧ n0 = 5 then some (.Load n2)
    else none

/-- A display frame: 32 rows of 64 boolean pixels. -/
def Display : Type := Fin 32 → Fin 64 → Bool

/-- A key-state snapshot: 16 boolean flags. -/
def Keys : Type := Fin 16 → Bool

/-- The machine state `struct ChipState`.  Fixed arrays are functions from
`Fin`; `speed` and `ticker` are nanosecond counts. -/
structure ChipState where
  memory : Fin 4096 → Nat
  registers : Fin 16 → Nat
  pc : Nat
  index : Nat
  pointer : Nat
  stack : Fin 16 → Nat
  display : Display
  speed : Nat
  ticker : Nat
  delay_timer : Nat
  sound_timer : Nat

/-- Bounds-checked register read, `self.registers[x as usize]`:
panics (`none`) when `x ≥ 16`. -/
def getr (regs : Fin 16 → Nat) (x : Nat) : Option Nat :=
  if h : x < 16 then some (regs ⟨x, h⟩) else none

/-- Bounds-checked register write. -/
def setr (regs : Fin 16 → Nat) (x v : Nat) : Option (Fin 16 → Nat) :=
  if h : x < 16 then some (Function.update regs ⟨x, h⟩ v) else none

/-- Bounds-checked memory read, `self.memory[i]`. -/
def readMem (s : ChipState) (i : Nat) : Option Nat :=
  if h : i < 4096 then some (s.memory ⟨i, h⟩) else none

/-- `fn increment_pc`: `self.pc += 2; self.pc &= 0x0FFF;` -/
def increment_pc (s : ChipState) : ChipState :=
  { s with pc := (s.pc + 2) % 4096 }

/-- `fn fetch`: big-endian 16-bit read at `pc`, `pc + 1`, then
`increment_pc`.  The two array reads are bounds-checked in order; the
second one panics when `pc = 0x0FFF`. -/
def fetch (s : ChipState) : Option (Nat × ChipState) :=
  match readMem s s.pc with
  | none => none
  | some hi =>
    match readMem s (s.pc + 1) with
    | none => none
    | some lo => some (hi * 256 + lo, increment_pc s)

/-- The timer-handling block at the top of `fn step` (after decode):
`ticker = ticker.saturating_sub(speed)`; on reaching zero both timers
`saturating_sub(1)` and the ticker reloads to 16666667 ns. -/
def tickTimers (s : ChipState) : ChipState :=
  let t := s.ticker - s.speed
  if t = 0 then
    { s with delay_timer := s.delay_timer - 1,
             sound_timer := s.sound_timer - 1,
             ticker := 16666667 }
  else { s with ticker := t }

/-- One byte of a sprite as its 8 pixels, most significant bit first:
`(0..8).map(|i| byte >> i & 1).rev()`. -/
def bitsOfByte (b : Nat) : List Bool :=
  ((List.range 8).map (fun i => b / 2 ^ i % 2 == 1)).reverse

/-- The sprite bytes `memory.iter().skip(index).take(n)`: the bytes at
`index, …` up to `n` of them, truncated at the end of memory (the
iterator never panics).  The `else` branch is unreachable because
`i < 4096 - index`. -/
def spriteRows (mem : Fin 4096 → Nat) (index n : Nat) : List Nat :=
  (List.range (min n (4096 - index))).map
    (fun i => if h : index + i < 4096 then mem ⟨index + i, h⟩ else 0)

/-- The inner column loop of the `Draw` arm: for each sprite bit of one
row, with `j` counting columns, read `registers[vx]` (bounds-checked,
and re-read every iteration, exactly as the Rust loop does), stop at the
right display edge, record a collision in `V15` and XOR the bit in. -/
def drawCols (vx : Nat) (y : Fin 32) :
    List Bool → Nat → (Fin 16 → Nat) × Display → Option ((Fin 16 → Nat) × Display)
  | [], _, st => some st
  | bit :: rest, j, (regs, disp) =>
    match getr regs vx with
    | none => none
    | some rx =>
      let x := rx % 64 + j
      if h : x < 64 then
        let px := disp y ⟨x, h⟩
        let regs1 := if px && bit then Function.update regs 15 1 else regs
        let disp1 : Display := fun p q =>
          if p = y ∧ q = ⟨x, h⟩ then Bool.xor px bit else disp p q
        drawCols vx y rest (j + 1) (regs1, disp1)
      else some (regs, disp)

/-- The outer row loop of the `Draw` arm: for each sprite row, with `i`
counting rows, read `registers[vy]` (re-read every iteration), stop at
the bottom display edge, and run the column loop. -/
def drawRows (vx vy : Nat) :
    List (List Bool) → Nat → (Fin 16 → Nat) × Display → Option ((Fin 16 → Nat) × Display)
  | [], _, st => some st
  | row :: rest, i, (regs, disp) =>
    match getr regs vy with
    | none => none
    | some ry =>
      let y := ry % 32 + i
      if h : y < 32 then
        match drawCols vx ⟨y, h⟩ row 0 (regs, disp) with
        | none => none
        | some st1 => drawRows vx vy rest (i + 1) st1
      else some (regs, disp)

/-- The loop of the `Store` arm: `for r in 0..=x` write
`memory[index + r] = registers[r]` (value read first, then the
bounds-checked store), with `c` the remaining iteration count. -/
def storeLoop (regs : Fin 16 → Nat) (index : Nat) :
    Nat → Nat → (Fin 4096 → Nat) → Option (Fin 4096 → Nat)
  | _, 0, mem => some mem
  | r, c + 1, mem =>
    match getr regs r with
    | none => none
    | some v =>
      if h : index + r < 4096 then
        storeLoop regs index (r + 1) c (Function.update mem ⟨index + r, h⟩ v)
      else none

/-- The loop of the `Load` arm: `for r in 0..=x` write
`registers[r] = memory[index + r]` (memory read first, then the
bounds-checked register store). -/
def loadLoop (mem : Fin 4096 → Nat) (index : Nat) :
    Nat → Nat → (Fin 16 → Nat) → Option (Fin 16 → Nat)
  | _, 0, regs => some regs
  | r, c + 1, regs =>
    if h : index + r < 4096 then
      match setr regs r (mem ⟨index + r, h⟩) with
      | none => none
      | some regs1 => loadLoop mem index (r + 1) c regs1
    else none

/-- `fn execute`, one arm per instruction, in source order.  `none`
models a panic; the second component of a successful result is the
optionally emitted display frame. -/
def execute (instr : Instruction) (keys : Keys) (rng : Nat) (s : ChipState) :
    Option (ChipState × Option Display) :=
  match instr with
  | .Nop => some (s, none)
  | .Cls =>
    let cleared : Display := fun _ _ => false
    some ({ s with display := cleared }, some cleared)
  | .Ret =>
    match (if h : s.pointer < 16 then some (s.stack ⟨s.pointer, h⟩) else none) with
    | none => none
    | some ret =>
      if s.pointer = 0 then none
      else some ({ s with pc := ret, pointer := s.pointer - 1 }, none)
  | .Jmp addr => some ({ s with pc := addr }, none)
  | .Call addr =>
    let p := s.pointer + 1
    if h : p < 16 then
      some ({ s with pointer := p,
                     stack := Function.update s.stack ⟨p, h⟩ s.pc,
                     pc := addr }, none)
    else none
  | .Ske x byte =>
    match getr s.registers x with
    | none => none
    | some v => some (if v = byte then increment_pc s else s, none)
  | .Skne x byte =>
    match getr s.registers x with
    | none => none
    | some v => some (if v ≠ byte then increment_pc s else s, none)
  | .Skre x y =>
    match getr s.registers x, getr s.registers y with
    | some vx, some vy => some (if vx = vy then increment_pc s else s, none)
    | _, _ => none
  | .Setr x byte =>
    match setr s.registers x byte with
    | none => none
    | some regs => some ({ s with registers := regs }, none)
  | .Addr x byte =>
    match getr s.registers x with
    | none => none
    | some v =>
      match setr s.registers x ((v + byte) % 256) with
      | none => none
      | some regs => some ({ s with registers := regs }, none)
  | .Move x y =>
    match getr s.registers y with
    | none => none
    | some vy =>
      match setr s.registers x vy with
      | none => none
      | some regs => some ({ s with registers := regs }, none)
  | .Or x y =>
    match getr s.registers x, getr s.registers y with
    | some vx, some vy =>
      match setr s.registers x (vx ||| vy) with
      | none => none
      | some regs => some ({ s with registers := regs }, none)
    | _, _ => none
  | .And x y =>
    match getr s.registers x, getr s.registers y with
    | some vx, some vy =>
      match setr s.registers x (vx &&& vy) with
      | none => none
      | some regs => some ({ s with registers := regs }, none)
    | _, _ => none
  | .Xor x y =>
    match getr s.registers x, getr s.registers y with
    | some vx, some vy =>
      match setr s.registers x (vx ^^^ vy) with
      | none => none
      | some regs => some ({ s with registers := regs }, none)
    | _, _ => none
  | .Add x y =>
    match getr s.registers x, getr s.registers y with
    | some vx, some vy =>
      let value := (vx + vy) % 256
      let carry := 256 ≤ vx + vy
      match setr s.registers x value with
      | none => none
      | some regs1 =>
        some ({ s with registers :=
          Function.update regs1 15 (if carry then 1 else 0) }, none)
    | _, _ => none
  | .Sub x y =>
    match getr s.registers x, getr s.registers y with
    | some vx, some vy =>
      let value := (vx + 256 - vy) % 256
      let borrow := vx < vy
      match setr s.registers x value with
      | none => none
      | some regs1 =>
        some ({ s with registers :=
          Function.update regs1 15 (if borrow then 0 else 1) }, none)
    | _, _ => none
  | .Shr x _y =>
    match getr s.registers x with
    | none => none
    | some vx =>
      let regs1 := Function.update s.registers 15 (vx % 2)
      match getr regs1 x with
      | none => none
      | some vx2 =>
        match setr regs1 x (vx2 / 2) with
        | none => none
        | some regs => some ({ s with registers := regs }, none)
  | .Ssub x y =>
    match getr s.registers x, getr s.registers y with
    | some vx, some vy =>
      let value := (vy + 256 - vx) % 256
      let borrow := vy < vx
      match setr s.registers x value with
      | none => none
      | some regs1 =>
        some ({ s with registers :=
          Function.update regs1 15 (if borrow then 0 else 1) }, none)
    | _, _ => none
  | .Shl x _y =>
    match getr s.registers x with
    | none => none
    | some vx =>
      let regs1 := Function.update s.registers 15 (vx % 256 / 128)
      match getr regs1 x with
      | none => none
      | some vx2 =>
        match setr regs1 x (vx2 * 2 % 256) with
        | none => none
        | some regs => some ({ s with registers := regs }, none)
  | .Skrne x y =>
    match getr s.registers x, getr s.registers y with
    | some vx, some vy => some (if vx ≠ vy then increment_pc s else s, none)
    | _, _ => none
  | .Seti addr => some ({ s with index := addr }, none)
  | .Jmpr addr =>
    match getr s.registers 0 with
    | none => none
    | some v0 => some ({ s with pc := (addr + v0) % 4096 }, none)
  | .Rand x byte =>
    match setr s.registers x (rng % 256 &&& byte) with
    | none => none
    | some regs => some ({ s with registers := regs }, none)
  | .Draw vx vy n =>
    let regs0 := Function.update s.registers 15 0
    let sprite := (spriteRows s.memory s.index (min n 15)).map bitsOfByte
    match drawRows vx vy sprite 0 (regs0, s.display) with
    | none => none
    | some (regs1, disp1) =>
      some ({ s with registers := regs1, display := disp1 }, some disp1)
  | .Skp x =>
    match getr s.registers x with
    | none => none
    | some v =>
      if h : v < 16 then
        some (if keys ⟨v, h⟩ then increment_pc s else s, none)
      else none
  | .Sknp x =>
    match getr s.registers x with
    | none => none
    | some v =>
      if h : v < 16 then
        some (if !keys ⟨v, h⟩ then increment_pc s else s, none)
      else none
  | .Moved x =>
    match setr s.registers x s.delay_timer with
    | none => none
    | some regs => some ({ s with registers := regs }, none)
  | .Key x =>
    if (List.ofFn keys).all (fun k => !k) then
      if s.pc < 2 then none
      else some ({ s with pc := s.pc - 2 }, none)
    else
      match (List.ofFn keys).findIdx? (fun k => k) with
      | none => none
      | some k =>
        match setr s.registers x k with
        | none => none
        | some regs => some ({ s with registers := regs }, none)
  | .Setrd x =>
    match getr s.registers x with
    | none => none
    | some v => some ({ s with delay_timer := v }, none)
  | .Setrs x =>
    match getr s.registers x with
    | none => none
    | some v => some ({ s with sound_timer := v }, none)
  | .Addi x =>
    match getr s.registers x with
    | none => none
    | some v => some ({ s with index := (s.index + v) % 4096 }, none)
  | .Ldfnt x =>
    match getr s.registers x with
    | none => none
    | some v => some ({ s with index := 0x50 + 5 * v }, none)
  | .Bcd x =>
    if s.index + 3 ≤ 4096 then
      match getr s.registers x with
      | none => none
      | some v =>
        some ({ s with memory := fun i =>
          if i.val = s.index then v / 100
          else if i.val = s.index + 1 then v % 100 / 10
          else if i.val = s.index + 2 then v % 10
          else s.memory i }, none)
    else none
  | .Store x =>
    match storeLoop s.registers s.index 0 (x + 1) s.memory with
    | none => none
    | some mem => some ({ s with memory := mem }, none)
  | .Load x =>
    match loadLoop s.memory s.index 0 (x + 1) s.registers with
    | none => none
    | some regs => some ({ s with registers := regs }, none)

/-- `fn step`: fetch, decode (a decode panic aborts before the timer
update), tick the timers, execute. -/
def step (keys : Keys) (rng : Nat) (s : ChipState) :
    Option (ChipState × Option Display) :=
  match fetch s with
  | none => none
  | some (opcode, s1) =>
    match Instruction.decode opcode with
    | none => none
    | some instr => execute instr keys rng (tickTimers s1)

/-- `fn load` with the file contents already read: copy the image to
`memory[0x200 .. 0x200 + len]` and reset the program counter.  The
slice expression panics (`none`) when the range end exceeds 4096; the
`io::Result` error path only reports filesystem failures, which are out
of scope here. -/
def load (bytes : List Nat) (s : ChipState) : Option ChipState :=
  if 0x200 + bytes.length ≤ 4096 then
    some { s with
      memory := fun i =>
        if 0x200 ≤ i.val ∧ i.val < 0x200 + bytes.length then
          bytes.getD (i.val - 0x200) 0
        else s.memory i,
      pc := 0x200 }
  else none

/-- `fn buzzer_active`: `self.sound_timer != 0`. -/
def buzzer_active (s : ChipState) : Bool :=
  s.sound_timer != 0

/-- `tickTimers` iterated over a window of step invocations. -/
def tickN : Nat → ChipState → ChipState
  | 0, s => s
  | k + 1, s => tickTimers (tickN k s)

/-- Executing `Call addr` and keeping the machine state. -/
def execCall (addr : Nat) (s : ChipState) : Option ChipState :=
  (execute (.Call addr) (fun _ => false) 0 s).map Prod.fst

/-- `k` nested `2nnn` calls in sequence (no intervening return). -/
def iterCall (addr : Nat) : Nat → ChipState → Option ChipState
  | 0, s => some s
  | k + 1, s =>
    match execCall addr s with
    | none => none
    | some s1 => iterCall addr k s1

/-- A scratch machine state used to instantiate theorems: zero memory and
registers, `pc = 0x200`, empty stack, clear display, full ticker. -/
def S0 : ChipState where
  memory := fun _ => 0
  registers := fun _ => 0
  pc := 0x200
  index := 0
  pointer := 0
  stack := fun _ => 0
  display := fun _ _ => false
  speed := 2000000
  ticker := 16666667
  delay_timer := 0
  sound_timer := 0

/-- Scratch state with `V15 = 5`, for exercising the flag-register
aliasing of the arithmetic instructions. -/
def S5 : ChipState :=
  { S0 with registers := Function.update S0.registers 15 5 }

/-- Classifier of opcodes following the specification's decode table
(section 4.1), written over the nibbles that determine whether a pattern
is defined: `n3` selects the family; `n0` discriminates within the
5/8/9 families; `n1` and `n0` discriminate within the E and F families.
Every nibble-0 opcode is defined (00E0, 00EE and the ignored SYS
calls). -/
def specDefined (n3 n1 n0 : Nat) : Bool :=
  (n3 == 0) || (n3 == 1) || (n3 == 2) || (n3 == 3) || (n3 == 4) ||
  (n3 == 5 && n0 == 0) || (n3 == 6) || (n3 == 7) ||
  (n3 == 8 && (n0 == 0 || n0 == 1 || n0 == 2 || n0 == 3 || n0 == 4 ||
    n0 == 5 || n0 == 6 || n0 == 7 || n0 == 14)) ||
  (n3 == 9 && n0 == 0) || (n3 == 10) || (n3 == 11) || (n3 == 12) || (n3 == 13) ||
  (n3 == 14 && ((n1 == 9 && n0 == 14) || (n1 == 10 && n0 == 1))) ||
  (n3 == 15 && ((n1 == 0 && n0 == 7) || (n1 == 0 && n0 == 10) ||
    (n1 == 1 && n0 == 5) || (n1 == 1 && n0 == 8) || (n1 == 1 && n0 == 14) ||
    (n1 == 2 && n0 == 9) || (n1 == 3 && n0 == 3) || (n1 == 5 && n0 == 5) ||
    (n1 == 6 && n0 == 5)))

/-- The set of display columns one sprite row touches when its leftmost
bit lands at column `st`: column `q` is set when `q ≥ st` and bit
`q - st` of the row is set.  Columns past the right edge fall outside
`Fin 64` automatically, which is exactly the clipping the draw loop's
`break` performs. -/
def rowMask (st : Nat) (bits : List Bool) (q : Fin 64) : Bool :=
  decide (st ≤ q.val) && bits.getD (q.val - st) false

/-- The set of display cells a sprite touches when its top row lands at
row `ys` and its leftmost bit at column `xs`; rows past the bottom edge
fall outside `Fin 32`, again matching the draw loop's `break`. -/
def gridMask (ys xs : Nat) (rows : List (List Bool)) (p : Fin 32) (q : Fin 64) : Bool :=
  decide (ys ≤ p.val) && rowMask xs (rows.getD (p.val - ys) []) q

lemma nibbles_digits (a b c d : Nat) (ha : a < 16) (hb : b < 16) (hc : c < 16)
    (hd : d < 16) :
    nibbles (a * 4096 + b * 256 + c * 16 + d) = (a, b, c, d) := by
  simp only [nibbles, Prod.mk.injEq]
  exact ⟨by omega, by omega, by omega, by omega⟩

set_option maxHeartbeats 1600000 in
lemma decode_isSome_eq_specDefined (a b c d : Nat) (ha : a < 16) (hb : b < 16)
    (hc : c < 16) (hd : d < 16) :
    (Instruction.decode (a * 4096 + b * 256 + c * 16 + d)).isSome = specDefined a c d := by
  simp only [Instruction.decode, nibbles_digits a b c d ha hb hc hd]
  interval_cases a <;> simp [specDefined] <;> split_ifs <;> simp_all

set_option maxHeartbeats 800000 in
lemma decode_nibble0_nop (a b c d : Nat) (ha : a = 0) (hb : b < 16) (hc : c < 16)
    (hd : d < 16) (hne0 : b * 256 + c * 16 + d ≠ 0xE0)
    (hnee : b * 256 + c * 16 + d ≠ 0xEE) :
    Instruction.decode (a * 4096 + b * 256 + c * 16 + d) = some .Nop := by
  subst ha
  simp only [Instruction.decode, nibbles_digits 0 b c d (by omega) hb hc hd]
  simp only [show (0 : Nat) = 0 ↔ True from by simp, true_and, if_true]
  split_ifs <;> first | rfl | omega

/-- Claim C1 (amended).  Over the whole 16-bit opcode space, `decode`
returns an instruction exactly on the spec-defined patterns (in
particular, every pattern beginning with nibble 0 other than 00E0/00EE
decodes to the explicit no-op); on every undefined pattern it panics
(`none`) instead of returning an explicit decode-error value. -/
theorem C1_decode_classification : ∀ op, op < 65536 →
    ((Instruction.decode op).isSome = specDefined (op / 4096) (op / 16 % 16) (op % 16)) ∧
    (op < 4096 ∧ op ≠ 0xE0 ∧ op ≠ 0xEE → Instruction.decode op = some .Nop) := by
  intro op hop
  obtain ⟨a, b, c, d, ha, hb, hc, hd, rfl⟩ :
      ∃ a b c d, a < 16 ∧ b < 16 ∧ c < 16 ∧ d < 16 ∧
        op = a * 4096 + b * 256 + c * 16 + d :=
    ⟨op / 4096, op / 256 % 16, op / 16 % 16, op % 16,
      by omega, by omega, by omega, by omega, by omega⟩
  have e3 : (a * 4096 + b * 256 + c * 16 + d) / 4096 = a := by omega
  have e1 : (a * 4096 + b * 256 + c * 16 + d) / 16 % 16 = c := by omega
  have e0 : (a * 4096 + b * 256 + c * 16 + d) % 16 = d := by omega
  rw [e3, e1, e0]
  refine ⟨decode_isSome_eq_specDefined a b c d ha hb hc hd, fun ⟨h1, h2, h3⟩ => ?_⟩
  have ha0 : a = 0 := by omega
  exact decode_nibble0_nop a b c d ha0 hb hc hd (by omega) (by omega)

/-- Witness for C1 at the concrete opcode 0x00E0. -/
theorem C1_decode_classification_witness :
    (0xE0 : Nat) < 65536 ∧
    (((Instruction.decode 0xE0).isSome =
        specDefined (0xE0 / 4096) (0xE0 / 16 % 16) (0xE0 % 16)) ∧
      ((0xE0 : Nat) < 4096 ∧ (0xE0 : Nat) ≠ 0xE0 ∧ (0xE0 : Nat) ≠ 0xEE →
        Instruction.decode 0xE0 = some .Nop)) :=
  ⟨by decide, C1_decode_classification 0xE0 (by decide)⟩

/-- Counterexample to C1 as stated: opcode 0x5001 matches no defined
pattern and does not begin with nibble 0, yet `decode` panics (modelled
`none`) instead of returning an instruction or an explicit decode-error
value. -/
theorem C1_decode_panics_cex : Instruction.decode 0x5001 = none := by decide

/-- Claim C10.  `buzzer_active` holds exactly when the sound timer is
nonzero; it is a pure function of the state (it is a plain Lean
function, so it cannot modify anything). -/
theorem C10_buzzer_active_iff : ∀ s : ChipState,
    buzzer_active s = true ↔ s.sound_timer ≠ 0 := by
  intro s
  simp [buzzer_active]

/-- Claim C3 is a code bug: the program counter itself is masked to 12
bits, but `fetch` reads `memory[pc + 1]` unmasked.  At `pc = 0x0FFF`
(reachable: opcode 0x1FFF decodes to a jump there, which executes fine)
the second fetch read indexes `memory[4096]`, out of bounds, and the
process panics (`none`) — contradicting the claim that the masking makes
every fetch read in-bounds for any executed instruction sequence. -/
theorem C3_fetch_out_of_bounds :
    Instruction.decode 0x1FFF = some (.Jmp 0xFFF) ∧
    execute (.Jmp 0xFFF) (fun _ => false) 0 S0 = some ({ S0 with pc := 0xFFF }, none) ∧
    fetch { S0 with pc := 0xFFF } = none :=
  ⟨by decide, rfl, rfl⟩

/-- Claim C5 (amended).  A 3584-byte image loads successfully, is placed
unmodified at 0x200–0xFFF, and resets the program counter; an image of
3585 or more bytes makes the slice copy panic (`none`, aborting the
process) — there is no LoadError result value. -/
theorem C5_load_bounds : ∀ (bytes : List Nat) (s : ChipState),
    (bytes.length = 3584 →
      ∃ s2, load bytes s = some s2 ∧ s2.pc = 0x200 ∧
        (∀ i : Fin 4096, 0x200 ≤ i.val → s2.memory i = bytes.getD (i.val - 0x200) 0) ∧
        (∀ i : Fin 4096, i.val < 0x200 → s2.memory i = s.memory i)) ∧
    (3584 < bytes.length → load bytes s = none) := by
  intro bytes s
  constructor
  · intro h
    have hc : 0x200 + bytes.length ≤ 4096 := by omega
    refine ⟨_, by rw [load, if_pos hc], rfl, fun i hi => ?_, fun i hi => ?_⟩
    · have : 0x200 ≤ i.val ∧ i.val < 0x200 + bytes.length := ⟨hi, by omega⟩
      simp only [if_pos this]
    · have : ¬(0x200 ≤ i.val ∧ i.val < 0x200 + bytes.length) := by omega
      simp only [if_neg this]
  · intro h
    rw [load, if_neg (by omega)]

/-- Witness for C5: a concrete 3584-byte image loads and lands at
0x200–0xFFF. -/
theorem C5_load_bounds_witness :
    (List.replicate 3584 7).length = 3584 ∧
    (∃ s2, load (List.replicate 3584 7) S0 = some s2 ∧ s2.pc = 0x200 ∧
      (∀ i : Fin 4096, 0x200 ≤ i.val →
        s2.memory i = (List.replicate 3584 7).getD (i.val - 0x200) 0) ∧
      (∀ i : Fin 4096, i.val < 0x200 → s2.memory i = S0.memory i)) :=
  ⟨List.length_replicate 3584 7,
    (C5_load_bounds (List.replicate 3584 7) S0).1 (List.length_replicate 3584 7)⟩

/-- Counterexample to C5 as stated: a 3585-byte image does not produce a
LoadError result — the slice copy panics (`none`), aborting the process
at load time. -/
theorem C5_load_panics_cex : load (List.replicate 3585 0) S0 = none := by
  rw [load, if_neg (by rw [List.length_replicate]; omega)]

lemma iterCall_ok (addr : Nat) : ∀ (k : Nat) (s : ChipState), s.pointer + k ≤ 15 →
    ∃ s2, iterCall addr k s = some s2 ∧ s2.pointer = s.pointer + k := by
  intro k
  induction k with
  | zero => exact fun s _ => ⟨s, rfl, rfl⟩
  | succ n ih =>
    intro s h
    have h1 : s.pointer + 1 < 16 := by omega
    obtain ⟨s2, he, hp⟩ :=
      ih { s with pointer := s.pointer + 1,
                  stack := Function.update s.stack ⟨s.pointer + 1, h1⟩ s.pc,
                  pc := addr } (by simpa using by omega)
    refine ⟨s2, ?_, by simpa [hp] using by omega⟩
    simpa [iterCall, execCall, execute, dif_pos h1] using he

lemma iterCall_fail (addr : Nat) : ∀ (k : Nat) (s : ChipState), 16 ≤ s.pointer + k →
    k ≠ 0 → iterCall addr k s = none := by
  intro k
  induction k with
  | zero => exact fun s _ h0 => absurd rfl h0
  | succ n ih =>
    intro s h _
    by_cases hp : s.pointer + 1 < 16
    · have hn : n ≠ 0 := by omega
      have := ih { s with pointer := s.pointer + 1,
                          stack := Function.update s.stack ⟨s.pointer + 1, hp⟩ s.pc,
                          pc := addr } (by simpa using by omega) hn
      simpa [iterCall, execCall, execute, dif_pos hp] using this
    · simp [iterCall, execCall, execute, dif_neg hp]

/-- Claim C2 (amended).  From a state with stack pointer 0, only 15
nested `2nnn` calls succeed (the pre-incremented pointer runs 1..15 and
slot 0 of the stack is never used); the 16th call indexes `stack[16]`
out of bounds and panics (`none`) — there is no StackFault error value.
A `00EE` return with no prior call reads the stack top and then panics
on the `u8` stack-pointer underflow (`none`).  In every non-panicking
prefix the pointer stays in 0–15. -/
theorem C2_stack_discipline (addr : Nat) (s : ChipState) (keys : Keys) (rng : Nat)
    (h : s.pointer = 0) :
    (∀ k, k ≤ 15 → ∃ s2, iterCall addr k s = some s2 ∧ s2.pointer = k) ∧
    iterCall addr 16 s = none ∧
    execute .Ret keys rng s = none := by
  refine ⟨fun k hk => ?_, ?_, ?_⟩
  · simpa [h] using iterCall_ok addr k s (by omega)
  · exact iterCall_fail addr 16 s (by omega) (by omega)
  · simp [execute, h]

/-- Witness for C2 at the scratch initial state. -/
theorem C2_stack_discipline_witness :
    S0.pointer = 0 ∧
    ((∀ k, k ≤ 15 → ∃ s2, iterCall 0x300 k S0 = some s2 ∧ s2.pointer = k) ∧
      iterCall 0x300 16 S0 = none ∧
      execute .Ret (fun _ => false) 0 S0 = none) :=
  ⟨rfl, C2_stack_discipline 0x300 S0 (fun _ => false) 0 rfl⟩

/-- Counterexample to C2 as stated: from the initial state the 16th
nested call already panics, so 16 nested calls do not all succeed (and
no StackFault value is ever produced). -/
theorem C2_sixteenth_call_panics_cex : iterCall 0x300 16 S0 = none := by
  exact iterCall_fail 0x300 16 S0 (by decide) (by decide)

/-- Claim C6 (amended).  For all register indices x, y: 8xy4 sets VF to
the carry of the 8-bit sum, 8xy5 sets VF to 1 exactly when Vx ≥ Vy, and
8xy7 sets VF to 1 exactly when Vy ≥ Vx (the flag write happens after
the result write, so it holds even when x = 15); and provided x ≠ 15,
Vx holds the wrapped sum / difference.  When x = 15 the flag overwrites
the result, so Vx holds the flag instead (see the counterexample). -/
theorem C6_arith_flags (x y : Nat) (keys : Keys) (rng : Nat) (s : ChipState)
    (hx : x < 16) (hy : y < 16) :
    (∃ s2, execute (.Add x y) keys rng s = some (s2, none) ∧
      s2.registers 15 =
        (if 256 ≤ s.registers ⟨x, hx⟩ + s.registers ⟨y, hy⟩ then 1 else 0) ∧
      (x ≠ 15 → s2.registers ⟨x, hx⟩ =
        (s.registers ⟨x, hx⟩ + s.registers ⟨y, hy⟩) % 256)) ∧
    (∃ s2, execute (.Sub x y) keys rng s = some (s2, none) ∧
      s2.registers 15 =
        (if s.registers ⟨x, hx⟩ < s.registers ⟨y, hy⟩ then 0 else 1) ∧
      (x ≠ 15 → s2.registers ⟨x, hx⟩ =
        (s.registers ⟨x, hx⟩ + 256 - s.registers ⟨y, hy⟩) % 256)) ∧
    (∃ s2, execute (.Ssub x y) keys rng s = some (s2, none) ∧
      s2.registers 15 =
        (if s.registers ⟨y, hy⟩ < s.registers ⟨x, hx⟩ then 0 else 1) ∧
      (x ≠ 15 → s2.registers ⟨x, hx⟩ =
        (s.registers ⟨y, hy⟩ + 256 - s.registers ⟨x, hx⟩) % 256)) := by
  have hfx : ∀ (hne : x ≠ 15), (⟨x, hx⟩ : Fin 16) ≠ 15 := by
    intro hne he
    exact hne (by simpa using congrArg Fin.val he)
  have hadd : execute (.Add x y) keys rng s = some ({ s with registers := Function.update (Function.update s.registers ⟨x, hx⟩ ((s.registers ⟨x, hx⟩ + s.registers ⟨y, hy⟩) % 256)) 15 (if 256 ≤ s.registers ⟨x, hx⟩ + s.registers ⟨y, hy⟩ then 1 else 0) }, none) := by
    simp [execute, getr, setr, dif_pos hx, dif_pos hy]
  have hsub : execute (.Sub x y) keys rng s = some ({ s with registers := Function.update (Function.update s.registers ⟨x, hx⟩ ((s.registers ⟨x, hx⟩ + 256 - s.registers ⟨y, hy⟩) % 256)) 15 (if s.registers ⟨x, hx⟩ < s.registers ⟨y, hy⟩ then 0 else 1) }, none) := by
    simp [execute, getr, setr, dif_pos hx, dif_pos hy]
  have hssub : execute (.Ssub x y) keys rng s = some ({ s with registers := Function.update (Function.update s.registers ⟨x, hx⟩ ((s.registers ⟨y, hy⟩ + 256 - s.registers ⟨x, hx⟩) % 256)) 15 (if s.registers ⟨y, hy⟩ < s.registers ⟨x, hx⟩ then 0 else 1) }, none) := by
    simp [execute, getr, setr, dif_pos hx, dif_pos hy]
  refine ⟨⟨_, hadd, by simp, fun hne => ?_⟩,
          ⟨_, hsub, by simp, fun hne => ?_⟩,
          ⟨_, hssub, by simp, fun hne => ?_⟩⟩ <;>
    simp [Function.update_noteq (hfx hne), Function.update_same]

/-- Witness for C6 at x = 1, y = 2 on the scratch state with V15 = 5. -/
theorem C6_arith_flags_witness :
    (1 : Nat) < 16 ∧ (2 : Nat) < 16 ∧
    ((∃ s2, execute (.Add 1 2) (fun _ => false) 0 S5 = some (s2, none) ∧
      s2.registers 15 =
        (if 256 ≤ S5.registers ⟨1, by omega⟩ + S5.registers ⟨2, by omega⟩ then 1 else 0) ∧
      ((1 : Nat) ≠ 15 → s2.registers ⟨1, by omega⟩ =
        (S5.registers ⟨1, by omega⟩ + S5.registers ⟨2, by omega⟩) % 256)) ∧
    (∃ s2, execute (.Sub 1 2) (fun _ => false) 0 S5 = some (s2, none) ∧
      s2.registers 15 =
        (if S5.registers ⟨1, by omega⟩ < S5.registers ⟨2, by omega⟩ then 0 else 1) ∧
      ((1 : Nat) ≠ 15 → s2.registers ⟨1, by omega⟩ =
        (S5.registers ⟨1, by omega⟩ + 256 - S5.registers ⟨2, by omega⟩) % 256)) ∧
    (∃ s2, execute (.Ssub 1 2) (fun _ => false) 0 S5 = some (s2, none) ∧
      s2.registers 15 =
        (if S5.registers ⟨2, by omega⟩ < S5.registers ⟨1, by omega⟩ then 0 else 1) ∧
      ((1 : Nat) ≠ 15 → s2.registers ⟨1, by omega⟩ =
        (S5.registers ⟨2, by omega⟩ + 256 - S5.registers ⟨1, by omega⟩) % 256))) :=
  ⟨by decide, by decide, C6_arith_flags 1 2 (fun _ => false) 0 S5 (by decide) (by decide)⟩

/-- Counterexample to C6 as stated: with x = 15, y = 0 and V15 = 5,
after 8xy4 the register Vx (= VF) holds the carry flag 0, not the
wrapped sum 5, because the flag write clobbers the result. -/
theorem C6_flag_clobbers_result_cex :
    ((execute (.Add 15 0) (fun _ => false) 0 S5).map fun p => p.1.registers 15) ≠
      some ((S5.registers 15 + S5.registers 0) % 256) := by decide

lemma tickN_fields (s : ChipState) (ht : s.ticker = 16666667) :
    ∀ j, j * s.speed < 16666667 →
      (tickN j s).ticker = 16666667 - j * s.speed ∧
      (tickN j s).speed = s.speed ∧
      (tickN j s).delay_timer = s.delay_timer ∧
      (tickN j s).sound_timer = s.sound_timer := by
  intro j
  induction j with
  | zero => intro _; simp [tickN, ht]
  | succ n ih =>
    intro hj
    have hmono : n * s.speed ≤ (n + 1) * s.speed :=
      Nat.mul_le_mul_right _ (by omega)
    obtain ⟨h1, h2, h3, h4⟩ := ih (lt_of_le_of_lt hmono hj)
    have ht1 : 16666667 - n * s.speed - s.speed = 16666667 - (n + 1) * s.speed := by
      rw [Nat.sub_sub, Nat.succ_mul]
    have hne : ¬(16666667 - (n + 1) * s.speed = 0) :=
      Nat.sub_ne_zero_of_lt hj
    simp only [tickN, tickTimers, h1, h2, h3, h4, ht1, if_neg hne]
    exact ⟨trivial, trivial, trivial, trivial⟩

/-- Claim C8.  Starting at a full timer accumulator, for any
per-instruction duration shorter than 1/60 s (a clock faster than
60 Hz) and any window of `k` invocations whose durations sum to exactly
the accumulator period (16666667 ns, the code's representation of
1/60 s), the delay timer decrements by exactly 1 — on the last
invocation of the window and never before — the sound timer likewise,
the decrement saturates at zero by construction (`Nat` subtraction),
and the accumulator is reset to exactly 16666667 ns. -/
theorem C8_timer_decay (s : ChipState) (k : Nat) (hs : 0 < s.speed)
    (hfast : s.speed < 16666667) (hk : k * s.speed = 16666667)
    (ht : s.ticker = 16666667) (hd : 0 < s.delay_timer) :
    (tickN k s).delay_timer = s.delay_timer - 1 ∧
    (tickN k s).sound_timer = s.sound_timer - 1 ∧
    (tickN k s).ticker = 16666667 ∧
    (∀ j, j ≤ k → s.delay_timer - 1 ≤ (tickN j s).delay_timer ∧
      (tickN j s).delay_timer ≤ s.delay_timer) := by
  have hk1 : k ≠ 0 := by rintro rfl; simp at hk
  obtain ⟨n, rfl⟩ : ∃ n, k = n + 1 := ⟨k - 1, by omega⟩
  have hsum : n * s.speed + s.speed = 16666667 := by
    rw [← Nat.succ_mul]; exact hk
  have hn : n * s.speed < 16666667 := by
    rw [← hsum]; exact Nat.lt_add_of_pos_right hs
  obtain ⟨h1, h2, h3, h4⟩ := tickN_fields s ht n hn
  have ht0 : 16666667 - n * s.speed - s.speed = 0 := by
    rw [Nat.sub_sub, hsum]
  have hlast : (tickN (n + 1) s).delay_timer = s.delay_timer - 1 ∧
      (tickN (n + 1) s).sound_timer = s.sound_timer - 1 ∧
      (tickN (n + 1) s).ticker = 16666667 := by
    simp only [tickN, tickTimers, h1, h2, h3, h4, ht0, if_pos rfl]
    exact ⟨rfl, rfl, rfl⟩
  refine ⟨hlast.1, hlast.2.1, hlast.2.2, fun j hj => ?_⟩
  rcases Nat.lt_or_ge j (n + 1) with hlt | hge
  · have hjn : j ≤ n := by omega
    have hjlt : j * s.speed < 16666667 :=
      lt_of_le_of_lt (Nat.mul_le_mul_right _ hjn) hn
    obtain ⟨-, -, hdj, -⟩ := tickN_fields s ht j hjlt
    omega
  · have hje : j = n + 1 := by omega
    subst hje
    have := hlast.1
    omega

/-- Witness for C8: speed 877193 ns (≈ 1140 Hz), 19 steps sum to exactly
16666667 ns, delay timer 3 decrements to 2. -/
theorem C8_timer_decay_witness :
    (0 < ({ S0 with speed := 877193, delay_timer := 3, sound_timer := 2 } : ChipState).speed) ∧
    (({ S0 with speed := 877193, delay_timer := 3, sound_timer := 2 } : ChipState).speed < 16666667) ∧
    (19 * ({ S0 with speed := 877193, delay_timer := 3, sound_timer := 2 } : ChipState).speed = 16666667) ∧
    ((tickN 19 { S0 with speed := 877193, delay_timer := 3, sound_timer := 2 }).delay_timer =
      ({ S0 with speed := 877193, delay_timer := 3, sound_timer := 2 } : ChipState).delay_timer - 1 ∧
    (tickN 19 { S0 with speed := 877193, delay_timer := 3, sound_timer := 2 }).sound_timer =
      ({ S0 with speed := 877193, delay_timer := 3, sound_timer := 2 } : ChipState).sound_timer - 1 ∧
    (tickN 19 { S0 with speed := 877193, delay_timer := 3, sound_timer := 2 }).ticker = 16666667 ∧
    (∀ j, j ≤ 19 →
      ({ S0 with speed := 877193, delay_timer := 3, sound_timer := 2 } : ChipState).delay_timer - 1 ≤
        (tickN j { S0 with speed := 877193, delay_timer := 3, sound_timer := 2 }).delay_timer ∧
      (tickN j { S0 with speed := 877193, delay_timer := 3, sound_timer := 2 }).delay_timer ≤
        ({ S0 with speed := 877193, delay_timer := 3, sound_timer := 2 } : ChipState).delay_timer)) :=
  ⟨by decide, by decide, by decide,
    C8_timer_decay { S0 with speed := 877193, delay_timer := 3, sound_timer := 2 } 19
      (by decide) (by decide) (by decide) rfl (by decide)⟩

lemma tickTimers_pc (s : ChipState) : (tickTimers s).pc = s.pc := by
  simp only [tickTimers]
  split <;> rfl

lemma tickTimers_registers (s : ChipState) : (tickTimers s).registers = s.registers := by
  simp only [tickTimers]
  split <;> rfl

lemma all_not_of_no_key (keys : Keys) (h : ∀ i, keys i = false) :
    (List.ofFn keys).all (fun k => !k) = true := by
  simp only [List.all_eq_true, List.mem_ofFn]
  rintro b ⟨i, rfl⟩
  simp [h i]

lemma all_not_false_of_found (keys : Keys) (k : Nat)
    (h : (List.ofFn keys).findIdx? (fun k => k) = some k) :
    (List.ofFn keys).all (fun k => !k) = false := by
  rw [List.findIdx?_eq_some_iff_getElem] at h
  obtain ⟨hlt, hp, -⟩ := h
  refine Bool.eq_false_iff.2 fun hall => ?_
  rw [List.all_eq_true] at hall
  have := hall _ (List.getElem_mem hlt)
  simp_all

/-- Claim C9 (amended).  For a state whose current instruction is Fx0A
and whose program counter is at most 0xFFD (so neither the fetch of
pc/pc+1 nor the post-fetch rewind wraps): with no key pressed, one step
leaves the program counter net unchanged (the fetch increment is
exactly undone) and the registers untouched; with a key pressed, Vx is
set to the index of the first pressed key and the program counter
advances past the instruction.  At pc = 0xFFE the rewind underflows and
panics instead (see the counterexample). -/
theorem C9_key_wait (s : ChipState) (keys : Keys) (rng : Nat) (x : Nat)
    (hpc : s.pc + 2 < 4096) (hx : x < 16)
    (hdec : Instruction.decode
      (s.memory ⟨s.pc, by omega⟩ * 256 + s.memory ⟨s.pc + 1, by omega⟩) = some (.Key x)) :
    ((∀ i, keys i = false) →
      ∃ s2, step keys rng s = some (s2, none) ∧ s2.pc = s.pc ∧
        s2.registers = s.registers) ∧
    (∀ k, (List.ofFn keys).findIdx? (fun k => k) = some k →
      ∃ s2, step keys rng s = some (s2, none) ∧ s2.pc = s.pc + 2 ∧
        s2.registers = Function.update s.registers ⟨x, hx⟩ k) := by
  have h1 : s.pc < 4096 := by omega
  have h2 : s.pc + 1 < 4096 := by omega
  have hfetch : fetch s =
      some (s.memory ⟨s.pc, h1⟩ * 256 + s.memory ⟨s.pc + 1, h2⟩, increment_pc s) := by
    simp [fetch, readMem, dif_pos h1, dif_pos h2]
  have hstep : step keys rng s =
      execute (.Key x) keys rng (tickTimers (increment_pc s)) := by
    simp only [step, hfetch, hdec]
  have hpc1 : (tickTimers (increment_pc s)).pc = s.pc + 2 := by
    rw [tickTimers_pc]
    simp only [increment_pc]
    exact Nat.mod_eq_of_lt hpc
  have hregs1 : (tickTimers (increment_pc s)).registers = s.registers := by
    rw [tickTimers_registers]
    rfl
  constructor
  · intro hno
    have hall := all_not_of_no_key keys hno
    refine ⟨{ tickTimers (increment_pc s) with pc := (tickTimers (increment_pc s)).pc - 2 },
      ?_, ?_, ?_⟩
    · rw [hstep]
      simp only [execute, hall]
      rw [if_pos trivial, if_neg (by omega)]
    · show (tickTimers (increment_pc s)).pc - 2 = s.pc
      omega
    · exact hregs1
  · intro k hk
    have hall := all_not_false_of_found keys k hk
    refine ⟨{ tickTimers (increment_pc s) with
        registers := Function.update (tickTimers (increment_pc s)).registers ⟨x, hx⟩ k },
      ?_, ?_, ?_⟩
    · rw [hstep]
      simp only [execute]
      rw [if_neg (by rw [hall]; exact Bool.false_ne_true), hk]
      simp only [setr, dif_pos hx]
    · exact hpc1
    · rw [hregs1]

/-- Witness for C9: a state with opcode F10A (wait-for-key into V1) at
pc = 0x200 and no key pressed. -/
theorem C9_key_wait_witness :
    (({ S0 with memory := fun i => if i.val = 0x200 then 0xF1 else if i.val = 0x201 then 0x0A else 0 } : ChipState).pc + 2 < 4096) ∧
    (1 : Nat) < 16 ∧
    (((∀ i, (fun (_ : Fin 16) => false) i = false) →
      ∃ s2, step (fun _ => false) 0 { S0 with memory := fun i => if i.val = 0x200 then 0xF1 else if i.val = 0x201 then 0x0A else 0 } = some (s2, none) ∧
        s2.pc = ({ S0 with memory := fun i => if i.val = 0x200 then 0xF1 else if i.val = 0x201 then 0x0A else 0 } : ChipState).pc ∧
        s2.registers = ({ S0 with memory := fun i => if i.val = 0x200 then 0xF1 else if i.val = 0x201 then 0x0A else 0 } : ChipState).registers) ∧
    (∀ k, (List.ofFn (fun (_ : Fin 16) => false)).findIdx? (fun k => k) = some k →
      ∃ s2, step (fun _ => false) 0 { S0 with memory := fun i => if i.val = 0x200 then 0xF1 else if i.val = 0x201 then 0x0A else 0 } = some (s2, none) ∧
        s2.pc = ({ S0 with memory := fun i => if i.val = 0x200 then 0xF1 else if i.val = 0x201 then 0x0A else 0 } : ChipState).pc + 2 ∧
        s2.registers = Function.update ({ S0 with memory := fun i => if i.val = 0x200 then 0xF1 else if i.val = 0x201 then 0x0A else 0 } : ChipState).registers ⟨1, by omega⟩ k)) :=
  ⟨by decide, by decide,
    C9_key_wait { S0 with memory := fun i => if i.val = 0x200 then 0xF1 else if i.val = 0x201 then 0x0A else 0 }
      (fun _ => false) 0 1 (by decide) (by decide) (by decide)⟩

/-- Counterexample to C9 as stated: with opcode F00A at pc = 0xFFE and
no key pressed, the post-fetch program counter has wrapped to 0, so the
rewind `pc -= 2` underflows and the step panics (`none`) instead of
leaving the program counter net unchanged. -/
theorem C9_key_wait_underflow_cex :
    step (fun _ => false) 0 { S0 with pc := 0xFFE, memory := fun i => if i.val = 0xFFE then 0xF0 else if i.val = 0xFFF then 0x0A else 0 } = none := rfl

lemma storeLoop_ok (regs : Fin 16 → Nat) (index : Nat) :
    ∀ (c r : Nat) (mem : Fin 4096 → Nat) (hc : r + c ≤ 16) (hb : index + r + c ≤ 4096),
      ∃ mem2, storeLoop regs index r c mem = some mem2 ∧
        (∀ j (hj : j < c), mem2 ⟨index + r + j, by omega⟩ = regs ⟨r + j, by omega⟩) ∧
        (∀ i : Fin 4096, (i.val < index + r ∨ index + r + c ≤ i.val) → mem2 i = mem i) := by
  intro c
  induction c with
  | zero =>
    intro r mem _ _
    exact ⟨mem, rfl, fun j hj => absurd hj (by omega), fun i _ => rfl⟩
  | succ n ih =>
    intro r mem hr hi
    have hr16 : r < 16 := by omega
    have hidx : index + r < 4096 := by omega
    obtain ⟨mem2, he, hin, hout⟩ :=
      ih (r + 1) (Function.update mem ⟨index + r, hidx⟩ (regs ⟨r, hr16⟩))
        (by omega) (by omega)
    refine ⟨mem2, ?_, ?_, ?_⟩
    · simpa [storeLoop, getr, dif_pos hr16, dif_pos hidx] using he
    · intro j hj
      rcases Nat.eq_zero_or_pos j with rfl | hj0
      · have h0 : mem2 ⟨index + r, hidx⟩ =
            Function.update mem ⟨index + r, hidx⟩ (regs ⟨r, hr16⟩) ⟨index + r, hidx⟩ :=
          hout _ (Or.inl (by show index + r < index + (r + 1); omega))
        simpa [Function.update_same] using h0
      · obtain ⟨j2, rfl⟩ : ∃ j2, j = j2 + 1 := ⟨j - 1, by omega⟩
        have := hin j2 (by omega)
        have harith : index + (r + 1) + j2 = index + r + (j2 + 1) := by omega
        have harith2 : r + 1 + j2 = r + (j2 + 1) := by omega
        simpa [Fin.mk.injEq, harith, harith2] using this
    · intro i hi2
      have h1 : mem2 i = Function.update mem ⟨index + r, hidx⟩ (regs ⟨r, hr16⟩) i :=
        hout i (by omega)
      rw [h1, Function.update_noteq]
      intro he2
      have := congrArg Fin.val he2
      simp at this
      omega

lemma storeLoop_fail (regs : Fin 16 → Nat) (index : Nat) :
    ∀ (c r : Nat) (mem : Fin 4096 → Nat), r + c + 1 ≤ 16 → 4096 < index + r + c + 1 →
      storeLoop regs index r (c + 1) mem = none := by
  intro c
  induction c with
  | zero =>
    intro r mem hr hi
    have hr16 : r < 16 := by omega
    have hidx : ¬(index + r < 4096) := by omega
    simp [storeLoop, getr, dif_pos hr16, dif_neg hidx]
  | succ n ih =>
    intro r mem hr hi
    have hr16 : r < 16 := by omega
    by_cases hidx : index + r < 4096
    · have := ih (r + 1) (Function.update mem ⟨index + r, hidx⟩ (regs ⟨r, hr16⟩))
        (by omega) (by omega)
      simpa [storeLoop, getr, dif_pos hr16, dif_pos hidx] using this
    · simp [storeLoop, getr, dif_pos hr16, dif_neg hidx]

lemma loadLoop_ok (mem : Fin 4096 → Nat) (index : Nat) :
    ∀ (c r : Nat) (regs : Fin 16 → Nat) (hc : r + c ≤ 16) (hb : index + r + c ≤ 4096),
      ∃ regs2, loadLoop mem index r c regs = some regs2 ∧
        (∀ j (hj : j < c), regs2 ⟨r + j, by omega⟩ = mem ⟨index + r + j, by omega⟩) ∧
        (∀ t : Fin 16, (t.val < r ∨ r + c ≤ t.val) → regs2 t = regs t) := by
  intro c
  induction c with
  | zero =>
    intro r regs _ _
    exact ⟨regs, rfl, fun j hj => absurd hj (by omega), fun t _ => rfl⟩
  | succ n ih =>
    intro r regs hr hi
    have hr16 : r < 16 := by omega
    have hidx : index + r < 4096 := by omega
    obtain ⟨regs2, he, hin, hout⟩ :=
      ih (r + 1) (Function.update regs ⟨r, hr16⟩ (mem ⟨index + r, hidx⟩))
        (by omega) (by omega)
    refine ⟨regs2, ?_, ?_, ?_⟩
    · simpa [loadLoop, setr, dif_pos hr16, dif_pos hidx] using he
    · intro j hj
      rcases Nat.eq_zero_or_pos j with rfl | hj0
      · have h0 : regs2 ⟨r, hr16⟩ =
            Function.update regs ⟨r, hr16⟩ (mem ⟨index + r, hidx⟩) ⟨r, hr16⟩ :=
          hout _ (Or.inl (by show r < r + 1; omega))
        simpa [Function.update_same] using h0
      · obtain ⟨j2, rfl⟩ : ∃ j2, j = j2 + 1 := ⟨j - 1, by omega⟩
        have := hin j2 (by omega)
        have harith : index + (r + 1) + j2 = index + r + (j2 + 1) := by omega
        have harith2 : r + 1 + j2 = r + (j2 + 1) := by omega
        simpa [Fin.mk.injEq, harith, harith2] using this
    · intro t ht
      have h1 : regs2 t = Function.update regs ⟨r, hr16⟩ (mem ⟨index + r, hidx⟩) t :=
        hout t (by omega)
      rw [h1, Function.update_noteq]
      intro he2
      have := congrArg Fin.val he2
      simp at this
      omega

lemma loadLoop_fail (mem : Fin 4096 → Nat) (index : Nat) :
    ∀ (c r : Nat) (regs : Fin 16 → Nat), r + c + 1 ≤ 16 → 4096 < index + r + c + 1 →
      loadLoop mem index r (c + 1) regs = none := by
  intro c
  induction c with
  | zero =>
    intro r regs hr hi
    have hidx : ¬(index + r < 4096) := by omega
    simp [loadLoop, dif_neg hidx]
  | succ n ih =>
    intro r regs hr hi
    have hr16 : r < 16 := by omega
    by_cases hidx : index + r < 4096
    · have := ih (r + 1) (Function.update regs ⟨r, hr16⟩ (mem ⟨index + r, hidx⟩))
        (by omega) (by omega)
      simpa [loadLoop, setr, dif_pos hr16, dif_pos hidx] using this
    · simp [loadLoop, dif_neg hidx]

/-- Claim C4 (amended).  For every register index x: Fx33 stays in
bounds and touches exactly memory[I..I+2] when I + 2 ≤ 0xFFF, and
panics (`none`) when I ≥ 0xFFE; Fx55 (and dually Fx65) stays in bounds
and touches exactly memory[I..I+x] (registers V0..Vx) when
I + x ≤ 0xFFF, and panics when I + x > 0xFFF.  No successful execution
corrupts state beyond the addressed bytes, but the in-bounds condition
is not guaranteed by construction: a 12-bit I close to the top of
memory drives all three instructions out of bounds. -/
theorem C4_index_mem_ops (x : Nat) (keys : Keys) (rng : Nat) (s : ChipState)
    (hx : x < 16) :
    (∀ (hB : s.index + 3 ≤ 4096),
      ∃ s2, execute (.Bcd x) keys rng s = some (s2, none) ∧
        (∀ i : Fin 4096, i.val = s.index → s2.memory i = s.registers ⟨x, hx⟩ / 100) ∧
        (∀ i : Fin 4096, i.val = s.index + 1 → s2.memory i = s.registers ⟨x, hx⟩ % 100 / 10) ∧
        (∀ i : Fin 4096, i.val = s.index + 2 → s2.memory i = s.registers ⟨x, hx⟩ % 10) ∧
        (∀ i : Fin 4096, i.val < s.index ∨ s.index + 2 < i.val → s2.memory i = s.memory i) ∧
        s2.registers = s.registers) ∧
    (4096 < s.index + 3 → execute (.Bcd x) keys rng s = none) ∧
    (∀ (hS : s.index + x < 4096),
      ∃ s2, execute (.Store x) keys rng s = some (s2, none) ∧
        (∀ r (hr : r ≤ x), s2.memory ⟨s.index + r, by omega⟩ = s.registers ⟨r, by omega⟩) ∧
        (∀ i : Fin 4096, i.val < s.index ∨ s.index + x < i.val → s2.memory i = s.memory i) ∧
        s2.registers = s.registers) ∧
    (4096 ≤ s.index + x → execute (.Store x) keys rng s = none) ∧
    (∀ (hL : s.index + x < 4096),
      ∃ s2, execute (.Load x) keys rng s = some (s2, none) ∧
        (∀ r (hr : r ≤ x), s2.registers ⟨r, by omega⟩ = s.memory ⟨s.index + r, by omega⟩) ∧
        (∀ t : Fin 16, x < t.val → s2.registers t = s.registers t) ∧
        s2.memory = s.memory) ∧
    (4096 ≤ s.index + x → execute (.Load x) keys rng s = none) := by
  refine ⟨?_, ?_, ?_, ?_, ?_, ?_⟩
  · intro hB
    have hbcd : execute (.Bcd x) keys rng s = some ({ s with memory := fun i => if i.val = s.index then s.registers ⟨x, hx⟩ / 100 else if i.val = s.index + 1 then s.registers ⟨x, hx⟩ % 100 / 10 else if i.val = s.index + 2 then s.registers ⟨x, hx⟩ % 10 else s.memory i }, none) := by
      simp only [execute, if_pos hB, getr, dif_pos hx]
    refine ⟨_, hbcd, fun i hiv => ?_, fun i hiv => ?_, fun i hiv => ?_, fun i hi => ?_, rfl⟩
    · show (if i.val = s.index then s.registers ⟨x, hx⟩ / 100 else if i.val = s.index + 1 then s.registers ⟨x, hx⟩ % 100 / 10 else if i.val = s.index + 2 then s.registers ⟨x, hx⟩ % 10 else s.memory i) = s.registers ⟨x, hx⟩ / 100
      rw [if_pos hiv]
    · show (if i.val = s.index then s.registers ⟨x, hx⟩ / 100 else if i.val = s.index + 1 then s.registers ⟨x, hx⟩ % 100 / 10 else if i.val = s.index + 2 then s.registers ⟨x, hx⟩ % 10 else s.memory i) = s.registers ⟨x, hx⟩ % 100 / 10
      rw [if_neg (by omega), if_pos hiv]
    · show (if i.val = s.index then s.registers ⟨x, hx⟩ / 100 else if i.val = s.index + 1 then s.registers ⟨x, hx⟩ % 100 / 10 else if i.val = s.index + 2 then s.registers ⟨x, hx⟩ % 10 else s.memory i) = s.registers ⟨x, hx⟩ % 10
      rw [if_neg (by omega), if_neg (by omega), if_pos hiv]
    · show (if i.val = s.index then s.registers ⟨x, hx⟩ / 100 else if i.val = s.index + 1 then s.registers ⟨x, hx⟩ % 100 / 10 else if i.val = s.index + 2 then s.registers ⟨x, hx⟩ % 10 else s.memory i) = s.memory i
      rw [if_neg (by omega), if_neg (by omega), if_neg (by omega)]
  · intro hBf
    simp only [execute, if_neg (by omega : ¬(s.index + 3 ≤ 4096))]
  · intro hS
    obtain ⟨mem2, he, hin, hout⟩ :=
      storeLoop_ok s.registers s.index (x + 1) 0 s.memory (by omega) (by omega)
    have hst : execute (.Store x) keys rng s = some ({ s with memory := mem2 }, none) := by
      simp only [execute, he]
    refine ⟨_, hst, fun r hr => ?_, fun i hi => ?_, rfl⟩
    · have := hin r (by omega)
      simpa using this
    · have := hout i (by omega)
      simpa using this
  · intro hSf
    have := storeLoop_fail s.registers s.index x 0 s.memory (by omega) (by omega)
    simp only [execute, this]
  · intro hL
    obtain ⟨regs2, he, hin, hout⟩ :=
      loadLoop_ok s.memory s.index (x + 1) 0 s.registers (by omega) (by omega)
    have hld : execute (.Load x) keys rng s = some ({ s with registers := regs2 }, none) := by
      simp only [execute, he]
    refine ⟨_, hld, fun r hr => ?_, fun t ht => ?_, rfl⟩
    · have := hin r (by omega)
      simpa using this
    · have := hout t (by omega)
      simpa using this
  · intro hLf
    have := loadLoop_fail s.memory s.index x 0 s.registers (by omega) (by omega)
    simp only [execute, this]

/-- Witness for C4: Fx33 with x = 2 and I = 0x300 writes the three BCD
digits in bounds. -/
theorem C4_index_mem_ops_witness :
    (2 : Nat) < 16 ∧
    (∀ (hB : ({ S0 with index := 768 } : ChipState).index + 3 ≤ 4096),
      ∃ s2, execute (.Bcd 2) (fun _ => false) 0 { S0 with index := 768 } = some (s2, none) ∧
        (∀ i : Fin 4096, i.val = ({ S0 with index := 768 } : ChipState).index →
          s2.memory i = ({ S0 with index := 768 } : ChipState).registers ⟨2, by omega⟩ / 100) ∧
        (∀ i : Fin 4096, i.val = ({ S0 with index := 768 } : ChipState).index + 1 →
          s2.memory i = ({ S0 with index := 768 } : ChipState).registers ⟨2, by omega⟩ % 100 / 10) ∧
        (∀ i : Fin 4096, i.val = ({ S0 with index := 768 } : ChipState).index + 2 →
          s2.memory i = ({ S0 with index := 768 } : ChipState).registers ⟨2, by omega⟩ % 10) ∧
        (∀ i : Fin 4096, i.val < ({ S0 with index := 768 } : ChipState).index ∨
          ({ S0 with index := 768 } : ChipState).index + 2 < i.val →
            s2.memory i = ({ S0 with index := 768 } : ChipState).memory i) ∧
        s2.registers = ({ S0 with index := 768 } : ChipState).registers) :=
  ⟨by decide,
    (C4_index_mem_ops 2 (fun _ => false) 0 { S0 with index := 768 } (by decide)).1⟩

/-- Counterexample to C4 as stated: Fx33 with the 12-bit index register
I = 0xFFE derives the memory range 0xFFE..0x1000, reads past the
4096-byte array and panics (`none`) — the operand being 12-bit does not
keep the derived indices in bounds. -/
theorem C4_bcd_out_of_bounds_cex :
    execute (.Bcd 0) (fun _ => false) 0 { S0 with index := 0xFFE } = none := rfl

lemma rowMask_nil (st : Nat) (q : Fin 64) : rowMask st [] q = false := by
  simp [rowMask]

lemma rowMask_cons (st : Nat) (b : Bool) (bits : List Bool) (q : Fin 64) :
    rowMask st (b :: bits) q =
      Bool.xor (decide (q.val = st) && b) (rowMask (st + 1) bits q) := by
  by_cases h0 : q.val = st
  · have hns : ¬(st + 1 ≤ q.val) := by omega
    simp [rowMask, h0, hns]
  · by_cases h1 : st ≤ q.val
    · have hlt : st + 1 ≤ q.val := by omega
      have e1 : q.val - st = (q.val - (st + 1)) + 1 := by omega
      simp [rowMask, h0, h1, e1, hlt]
    · have h2 : ¬(st + 1 ≤ q.val) := by omega
      simp [rowMask, h0, h1, h2]

lemma gridMask_nil (ys xs : Nat) (p : Fin 32) (q : Fin 64) :
    gridMask ys xs [] p q = false := by
  simp [gridMask, rowMask_nil]

lemma gridMask_cons (ys xs : Nat) (row : List Bool) (rest : List (List Bool))
    (p : Fin 32) (q : Fin 64) :
    gridMask ys xs (row :: rest) p q =
      Bool.xor (decide (p.val = ys) && rowMask xs row q)
        (gridMask (ys + 1) xs rest p q) := by
  by_cases h0 : p.val = ys
  · have hns : ¬(ys + 1 ≤ p.val) := by omega
    simp [gridMask, h0, hns]
  · by_cases h1 : ys ≤ p.val
    · have hlt : ys + 1 ≤ p.val := by omega
      have e1 : p.val - ys = (p.val - (ys + 1)) + 1 := by omega
      simp [gridMask, h0, h1, e1, hlt]
    · have h2 : ¬(ys + 1 ≤ p.val) := by omega
      simp [gridMask, h0, h1, h2]


lemma rowMask_top_ne (st : Nat) (rest : List Bool) (h64 : st < 64) :
    rowMask (st + 1) rest ⟨st, h64⟩ = false := by
  have : ¬(st + 1 ≤ st) := by omega
  simp [rowMask, this]

lemma col_exists_iff (st : Nat) (b : Bool) (rest : List Bool) (y : Fin 32)
    (disp : Display) (h64 : st < 64)
    (hcne : ¬(disp y ⟨st, h64⟩ = true ∧ b = true)) :
    (∃ q : Fin 64, rowMask (st + 1) rest q = true ∧
      (if y = y ∧ q = ⟨st, h64⟩ then Bool.xor (disp y ⟨st, h64⟩) b else disp y q) = true) ↔
    (∃ q : Fin 64, rowMask st (b :: rest) q = true ∧ disp y q = true) := by
  constructor
  · rintro ⟨q, hm, hd⟩
    by_cases hq : q = ⟨st, h64⟩
    · subst hq
      rw [rowMask_top_ne] at hm
      exact absurd hm (by simp)
    · rw [if_neg (by simp [hq])] at hd
      refine ⟨q, ?_, hd⟩
      rw [rowMask_cons]
      have hqv : ¬(q.val = st) := fun hv => hq (Fin.ext hv)
      simp [hqv, hm]
  · rintro ⟨q, hm, hd⟩
    rw [rowMask_cons] at hm
    by_cases hq : q.val = st
    · have hqe : q = ⟨st, h64⟩ := Fin.ext hq
      subst hqe
      rw [rowMask_top_ne] at hm
      simp at hm
      exact absurd ⟨hd, hm⟩ hcne
    · simp [hq] at hm
      have hqne : ¬(q = ⟨st, h64⟩) := fun hv => hq (by rw [hv])
      refine ⟨q, hm, ?_⟩
      rw [if_neg (by simp [hqne])]
      exact hd

lemma col_pixel_eq (st : Nat) (b : Bool) (rest : List Bool) (y p : Fin 32) (q : Fin 64)
    (disp : Display) (h64 : st < 64) :
    Bool.xor (if p = y ∧ q = ⟨st, h64⟩ then Bool.xor (disp y ⟨st, h64⟩) b else disp p q)
      (decide (p = y) && rowMask (st + 1) rest q) =
    Bool.xor (disp p q) (decide (p = y) && rowMask st (b :: rest) q) := by
  by_cases hp : p = y
  · subst hp
    by_cases hq : q = ⟨st, h64⟩
    · subst hq
      rw [if_pos ⟨rfl, rfl⟩, rowMask_cons, rowMask_top_ne]
      cases hb : b <;> cases hpx : disp p ⟨st, h64⟩ <;> simp [hb, hpx]
    · rw [if_neg (by simp [hq]), rowMask_cons]
      have hqv : ¬(q.val = st) := fun hv => hq (Fin.ext hv)
      simp [hqv]
  · rw [if_neg (by simp [hp])]
    simp [hp]

lemma drawCols_spec (vx : Nat) (hvx : vx < 16) (hne : (⟨vx, hvx⟩ : Fin 16) ≠ 15)
    (y : Fin 32) :
    ∀ (bits : List Bool) (j : Nat) (regs : Fin 16 → Nat) (disp : Display),
      ∃ R D, drawCols vx y bits j (regs, disp) = some (R, D) ∧
        (∀ r : Fin 16, r ≠ 15 → R r = regs r) ∧
        (R 15 = if ∃ q : Fin 64, rowMask (regs ⟨vx, hvx⟩ % 64 + j) bits q = true ∧
          disp y q = true then 1 else regs 15) ∧
        (∀ p q, D p q = Bool.xor (disp p q)
          (decide (p = y) && rowMask (regs ⟨vx, hvx⟩ % 64 + j) bits q)) := by
  intro bits
  induction bits with
  | nil =>
    intro j regs disp
    refine ⟨regs, disp, rfl, fun _ _ => rfl, ?_, ?_⟩
    · simp [rowMask_nil]
    · simp [rowMask_nil]
  | cons b rest ih =>
    intro j regs disp
    by_cases h64 : regs ⟨vx, hvx⟩ % 64 + j < 64
    · obtain ⟨R, D, he, hR, hR15, hD⟩ :=
        ih (j + 1)
          (if disp y ⟨regs ⟨vx, hvx⟩ % 64 + j, h64⟩ && b then
            Function.update regs 15 1 else regs)
          (fun p q => if p = y ∧ q = ⟨regs ⟨vx, hvx⟩ % 64 + j, h64⟩ then
            Bool.xor (disp y ⟨regs ⟨vx, hvx⟩ % 64 + j, h64⟩) b else disp p q)
      have hbase : (if disp y ⟨regs ⟨vx, hvx⟩ % 64 + j, h64⟩ && b then
          Function.update regs 15 1 else regs) ⟨vx, hvx⟩ = regs ⟨vx, hvx⟩ := by
        by_cases hc : (disp y ⟨regs ⟨vx, hvx⟩ % 64 + j, h64⟩ && b) = true <;>
          simp [hc, Function.update_noteq hne]
      rw [hbase] at hR15 hD
      refine ⟨R, D, ?_, ?_, ?_, ?_⟩
      · simpa [drawCols, getr, dif_pos hvx, dif_pos h64] using he
      · intro r hr
        rw [hR r hr]
        by_cases hc : (disp y ⟨regs ⟨vx, hvx⟩ % 64 + j, h64⟩ && b) = true <;>
          simp [hc, Function.update_noteq hr]
      · rw [hR15]
        by_cases hc : (disp y ⟨regs ⟨vx, hvx⟩ % 64 + j, h64⟩ && b) = true
        · obtain ⟨hpx, hb2⟩ : disp y ⟨regs ⟨vx, hvx⟩ % 64 + j, h64⟩ = true ∧ b = true := by
            simpa using hc
          have hcol : ∃ q : Fin 64,
              rowMask (regs ⟨vx, hvx⟩ % 64 + j) (b :: rest) q = true ∧
              disp y q = true := by
            refine ⟨⟨regs ⟨vx, hvx⟩ % 64 + j, h64⟩, ?_, hpx⟩
            rw [rowMask_cons, rowMask_top_ne]
            simp [hb2]
          rw [if_pos hcol]
          have h15 : (if (disp y ⟨regs ⟨vx, hvx⟩ % 64 + j, h64⟩ && b) = true then
              Function.update regs 15 1 else regs) 15 = 1 := by
            rw [if_pos hc]
            simp
          rw [h15]
          split <;> rfl
        · have hcne : ¬(disp y ⟨regs ⟨vx, hvx⟩ % 64 + j, h64⟩ = true ∧ b = true) := by
            intro ⟨ha2, hb2⟩
            exact hc (by simp [ha2, hb2])
          have h15 : (if (disp y ⟨regs ⟨vx, hvx⟩ % 64 + j, h64⟩ && b) = true then
              Function.update regs 15 1 else regs) 15 = regs 15 := by
            rw [if_neg hc]
          rw [h15]
          exact if_congr (col_exists_iff (regs ⟨vx, hvx⟩ % 64 + j) b rest y disp h64 hcne)
            rfl rfl
      · intro p q
        rw [hD p q]
        exact col_pixel_eq (regs ⟨vx, hvx⟩ % 64 + j) b rest y p q disp h64
    · have hmaskall : ∀ q : Fin 64,
          rowMask (regs ⟨vx, hvx⟩ % 64 + j) (b :: rest) q = false := by
        intro q
        have : ¬(regs ⟨vx, hvx⟩ % 64 + j ≤ q.val) := by
          have := q.isLt
          omega
        simp [rowMask, this]
      refine ⟨regs, disp, ?_, fun _ _ => rfl, ?_, ?_⟩
      · simp [drawCols, getr, dif_pos hvx, dif_neg h64]
      · simp [hmaskall]
      · intro p q
        simp [hmaskall]

lemma gridMask_top_ne (ys xs : Nat) (rest : List (List Bool)) (h32 : ys < 32)
    (q : Fin 64) : gridMask (ys + 1) xs rest ⟨ys, h32⟩ q = false := by
  have : ¬(ys + 1 ≤ ys) := by omega
  simp [gridMask, this]

lemma row_exists_combine (ys xs : Nat) (row : List Bool) (rest : List (List Bool))
    (h32 : ys < 32) (disp : Display) :
    (∃ p q, gridMask ys xs (row :: rest) p q = true ∧ disp p q = true) ↔
    ((∃ q, rowMask xs row q = true ∧ disp ⟨ys, h32⟩ q = true) ∨
     (∃ p q, gridMask (ys + 1) xs rest p q = true ∧ disp p q = true)) := by
  constructor
  · rintro ⟨p, q, hm, hd⟩
    rw [gridMask_cons] at hm
    by_cases hp : p.val = ys
    · have hpe : p = ⟨ys, h32⟩ := Fin.ext hp
      subst hpe
      rw [gridMask_top_ne ys xs rest h32 q] at hm
      simp at hm
      exact Or.inl ⟨q, hm, hd⟩
    · have hx : decide (p.val = ys) = false := by simp [hp]
      rw [hx] at hm
      simp at hm
      exact Or.inr ⟨p, q, hm, hd⟩
  · rintro (⟨q, hm, hd⟩ | ⟨p, q, hm, hd⟩)
    · refine ⟨⟨ys, h32⟩, q, ?_, hd⟩
      rw [gridMask_cons, gridMask_top_ne ys xs rest h32 q]
      simp [hm]
    · refine ⟨p, q, ?_, hd⟩
      rw [gridMask_cons]
      have hm2 := hm
      simp only [gridMask, Bool.and_eq_true, decide_eq_true_eq] at hm2
      have hp : ¬(p.val = ys) := by omega
      simp [hp, hm]

lemma rest_exists_transfer (ys xs : Nat) (rest : List (List Bool)) (h32 : ys < 32)
    (disp : Display) (m : Fin 64 → Bool) :
    (∃ p q, gridMask (ys + 1) xs rest p q = true ∧
      Bool.xor (disp p q) (decide (p = ⟨ys, h32⟩) && m q) = true) ↔
    (∃ p q, gridMask (ys + 1) xs rest p q = true ∧ disp p q = true) := by
  constructor <;> rintro ⟨p, q, hm, hd⟩ <;> refine ⟨p, q, hm, ?_⟩ <;>
  · have hm2 := hm
    simp only [gridMask, Bool.and_eq_true, decide_eq_true_eq] at hm2
    have hp : ¬(p = (⟨ys, h32⟩ : Fin 32)) := by
      intro he
      have hv : p.val = ys := by rw [he]
      omega
    simp [hp] at hd ⊢
    exact hd

lemma row_pixel_eq (ys xs : Nat) (row : List Bool) (rest : List (List Bool))
    (h32 : ys < 32) (disp : Display) (p : Fin 32) (q : Fin 64) :
    Bool.xor (Bool.xor (disp p q) (decide (p = ⟨ys, h32⟩) && rowMask xs row q))
      (gridMask (ys + 1) xs rest p q) =
    Bool.xor (disp p q) (gridMask ys xs (row :: rest) p q) := by
  rw [gridMask_cons]
  have hdec : decide (p = (⟨ys, h32⟩ : Fin 32)) = decide (p.val = ys) := by
    simp [Fin.ext_iff]
  rw [hdec]
  cases hd : disp p q <;> cases hx : decide (p.val = ys) <;>
    cases hm : rowMask xs row q <;> cases hg : gridMask (ys + 1) xs rest p q <;> simp

lemma drawRows_spec (vx vy : Nat) (hvx : vx < 16) (hvy : vy < 16)
    (hnex : (⟨vx, hvx⟩ : Fin 16) ≠ 15) (hney : (⟨vy, hvy⟩ : Fin 16) ≠ 15) :
    ∀ (rows : List (List Bool)) (i : Nat) (regs : Fin 16 → Nat) (disp : Display),
      ∃ R D, drawRows vx vy rows i (regs, disp) = some (R, D) ∧
        (∀ r : Fin 16, r ≠ 15 → R r = regs r) ∧
        (R 15 = if ∃ p q, gridMask (regs ⟨vy, hvy⟩ % 32 + i) (regs ⟨vx, hvx⟩ % 64)
          rows p q = true ∧ disp p q = true then 1 else regs 15) ∧
        (∀ p q, D p q = Bool.xor (disp p q)
          (gridMask (regs ⟨vy, hvy⟩ % 32 + i) (regs ⟨vx, hvx⟩ % 64) rows p q)) := by
  intro rows
  induction rows with
  | nil =>
    intro i regs disp
    refine ⟨regs, disp, rfl, fun _ _ => rfl, ?_, ?_⟩
    · simp [gridMask_nil]
    · simp [gridMask_nil]
  | cons row rest ih =>
    intro i regs disp
    by_cases h32 : regs ⟨vy, hvy⟩ % 32 + i < 32
    · obtain ⟨R1, D1, he1, hR1, hR115, hD1⟩ :=
        drawCols_spec vx hvx hnex ⟨regs ⟨vy, hvy⟩ % 32 + i, h32⟩ row 0 regs disp
      simp only [Nat.add_zero] at hR115 hD1
      obtain ⟨R, D, he2, hR2, hR215, hD2⟩ := ih (i + 1) R1 D1
      have hRvy : R1 ⟨vy, hvy⟩ = regs ⟨vy, hvy⟩ := hR1 _ hney
      have hRvx : R1 ⟨vx, hvx⟩ = regs ⟨vx, hvx⟩ := hR1 _ hnex
      rw [hRvy, hRvx] at hR215 hD2
      refine ⟨R, D, ?_, ?_, ?_, ?_⟩
      · simp only [drawRows, getr, dif_pos hvy, dif_pos h32, he1, he2]
      · intro r hr
        rw [hR2 r hr, hR1 r hr]
      · rw [hR215]
        by_cases hh : ∃ q, rowMask (regs ⟨vx, hvx⟩ % 64) row q = true ∧
            disp ⟨regs ⟨vy, hvy⟩ % 32 + i, h32⟩ q = true
        · have hfull : ∃ p q, gridMask (regs ⟨vy, hvy⟩ % 32 + i) (regs ⟨vx, hvx⟩ % 64)
              (row :: rest) p q = true ∧ disp p q = true :=
            (row_exists_combine _ _ row rest h32 disp).mpr (Or.inl hh)
          rw [if_pos hfull, hR115, if_pos hh]
          split <;> rfl
        · have h115 : R1 15 = regs 15 := by rw [hR115, if_neg hh]
          rw [h115]
          have htrans : (∃ p q, gridMask (regs ⟨vy, hvy⟩ % 32 + (i + 1))
              (regs ⟨vx, hvx⟩ % 64) rest p q = true ∧ D1 p q = true) ↔
              (∃ p q, gridMask (regs ⟨vy, hvy⟩ % 32 + (i + 1))
                (regs ⟨vx, hvx⟩ % 64) rest p q = true ∧ disp p q = true) := by
            simp only [hD1]
            exact rest_exists_transfer (regs ⟨vy, hvy⟩ % 32 + i)
              (regs ⟨vx, hvx⟩ % 64) rest h32 disp
              (fun q => rowMask (regs ⟨vx, hvx⟩ % 64) row q)
          have hcombine : (∃ p q, gridMask (regs ⟨vy, hvy⟩ % 32 + i)
              (regs ⟨vx, hvx⟩ % 64) (row :: rest) p q = true ∧ disp p q = true) ↔
              (∃ p q, gridMask (regs ⟨vy, hvy⟩ % 32 + (i + 1))
                (regs ⟨vx, hvx⟩ % 64) rest p q = true ∧ disp p q = true) := by
            refine (row_exists_combine _ _ row rest h32 disp).trans ?_
            exact or_iff_right hh
          exact if_congr (htrans.trans hcombine.symm) rfl rfl
      · intro p q
        rw [hD2 p q, hD1 p q]
        exact row_pixel_eq (regs ⟨vy, hvy⟩ % 32 + i) (regs ⟨vx, hvx⟩ % 64)
          row rest h32 disp p q
    · have hmaskall : ∀ (p : Fin 32) (q : Fin 64),
          gridMask (regs ⟨vy, hvy⟩ % 32 + i) (regs ⟨vx, hvx⟩ % 64) (row :: rest) p q = false := by
        intro p q
        have : ¬(regs ⟨vy, hvy⟩ % 32 + i ≤ p.val) := by
          have := p.isLt
          omega
        simp [gridMask, this]
      refine ⟨regs, disp, ?_, fun _ _ => rfl, ?_, ?_⟩
      · simp [drawRows, getr, dif_pos hvy, dif_neg h32]
      · simp [hmaskall]
      · intro p q
        simp [hmaskall]

lemma draw_spec (vx vy n : Nat) (keys : Keys) (rng : Nat) (s : ChipState)
    (hvx : vx < 16) (hvy : vy < 16)
    (hnex : (⟨vx, hvx⟩ : Fin 16) ≠ 15) (hney : (⟨vy, hvy⟩ : Fin 16) ≠ 15) :
    ∃ s2, execute (.Draw vx vy n) keys rng s = some (s2, some s2.display) ∧
      s2.memory = s.memory ∧ s2.index = s.index ∧
      (∀ r : Fin 16, r ≠ 15 → s2.registers r = s.registers r) ∧
      (s2.registers 15 = if ∃ p q, gridMask (s.registers ⟨vy, hvy⟩ % 32)
        (s.registers ⟨vx, hvx⟩ % 64)
        ((spriteRows s.memory s.index (min n 15)).map bitsOfByte) p q = true ∧
        s.display p q = true then 1 else 0) ∧
      (∀ p q, s2.display p q = Bool.xor (s.display p q)
        (gridMask (s.registers ⟨vy, hvy⟩ % 32) (s.registers ⟨vx, hvx⟩ % 64)
          ((spriteRows s.memory s.index (min n 15)).map bitsOfByte) p q)) := by
  obtain ⟨R, D, he, hR, hR15, hD⟩ :=
    drawRows_spec vx vy hvx hvy hnex hney
      ((spriteRows s.memory s.index (min n 15)).map bitsOfByte) 0
      (Function.update s.registers 15 0) s.display
  simp only [Nat.add_zero] at hR15 hD
  have hvy0 : Function.update s.registers 15 0 ⟨vy, hvy⟩ = s.registers ⟨vy, hvy⟩ := by
    rw [Function.update_noteq hney]
  have hvx0 : Function.update s.registers 15 0 ⟨vx, hvx⟩ = s.registers ⟨vx, hvx⟩ := by
    rw [Function.update_noteq hnex]
  rw [hvy0, hvx0] at hR15 hD
  have h15z : Function.update s.registers 15 0 15 = 0 := by simp
  rw [h15z] at hR15
  refine ⟨{ s with registers := R, display := D }, ?_, rfl, rfl, ?_, hR15, hD⟩
  · simp only [execute, he]
  · intro r hr
    show R r = s.registers r
    rw [hR r hr, Function.update_noteq hr]

/-- Claim C7 (amended).  For coordinate registers other than the flag
register (vx ≠ 15, vy ≠ 15), drawing the same sprite twice consecutively
restores the display to its exact pre-draw state; and when the first
draw erases no pixel (every pixel it flips was clear) while flipping at
least one pixel, VF is 0 after the first draw and 1 after the second.
When the sprite contributes no visible pixel, or when a coordinate
register is VF itself (the collision flag rewrites the coordinate
mid-draw), the claim fails — see the counterexample. -/
theorem C7_draw_double_xor (vx vy n : Nat) (keys : Keys) (rng : Nat) (s : ChipState)
    (hvx : vx < 16) (hvy : vy < 16) (hnex : vx ≠ 15) (hney : vy ≠ 15) :
    ∃ s1 s2, execute (.Draw vx vy n) keys rng s = some (s1, some s1.display) ∧
      execute (.Draw vx vy n) keys rng s1 = some (s2, some s2.display) ∧
      s2.display = s.display ∧
      ((∀ p q, s1.display p q ≠ s.display p q → s.display p q = false) →
        (∃ p q, s1.display p q ≠ s.display p q) →
          s1.registers 15 = 0 ∧ s2.registers 15 = 1) := by
  have hnex' : (⟨vx, hvx⟩ : Fin 16) ≠ 15 := fun he =>
    hnex (by simpa using congrArg Fin.val he)
  have hney' : (⟨vy, hvy⟩ : Fin 16) ≠ 15 := fun he =>
    hney (by simpa using congrArg Fin.val he)
  obtain ⟨s1, he1, hm1, hi1, hr1, h151, hd1⟩ :=
    draw_spec vx vy n keys rng s hvx hvy hnex' hney'
  obtain ⟨s2, he2, hm2, hi2, hr2, h152, hd2⟩ :=
    draw_spec vx vy n keys rng s1 hvx hvy hnex' hney'
  have hreg_vy : s1.registers ⟨vy, hvy⟩ = s.registers ⟨vy, hvy⟩ := hr1 _ hney'
  have hreg_vx : s1.registers ⟨vx, hvx⟩ = s.registers ⟨vx, hvx⟩ := hr1 _ hnex'
  rw [hm1, hi1, hreg_vy, hreg_vx] at h152 hd2
  refine ⟨s1, s2, he1, he2, ?_, ?_⟩
  · funext p q
    rw [hd2 p q, hd1 p q]
    cases hdp : s.display p q <;>
      cases hmp : gridMask (s.registers ⟨vy, hvy⟩ % 32) (s.registers ⟨vx, hvx⟩ % 64)
        ((spriteRows s.memory s.index (min n 15)).map bitsOfByte) p q <;> simp
  · intro hclear hchanged
    have hch : ∀ p q, (s1.display p q ≠ s.display p q) ↔
        gridMask (s.registers ⟨vy, hvy⟩ % 32) (s.registers ⟨vx, hvx⟩ % 64)
          ((spriteRows s.memory s.index (min n 15)).map bitsOfByte) p q = true := by
      intro p q
      rw [hd1 p q]
      cases hdp : s.display p q <;>
        cases hmp : gridMask (s.registers ⟨vy, hvy⟩ % 32) (s.registers ⟨vx, hvx⟩ % 64)
          ((spriteRows s.memory s.index (min n 15)).map bitsOfByte) p q <;> simp
    constructor
    · have hno : ¬∃ p q, gridMask (s.registers ⟨vy, hvy⟩ % 32)
          (s.registers ⟨vx, hvx⟩ % 64)
          ((spriteRows s.memory s.index (min n 15)).map bitsOfByte) p q = true ∧
          s.display p q = true := by
        rintro ⟨p, q, hmq, hdq⟩
        have hf := hclear p q ((hch p q).mpr hmq)
        rw [hf] at hdq
        exact absurd hdq (by simp)
      rw [h151, if_neg hno]
    · obtain ⟨p, q, hpq⟩ := hchanged
      have hmq := (hch p q).mp hpq
      have hd1q : s1.display p q = true := by
        rw [hd1 p q, hclear p q hpq]
        simp [hmq]
      have hyes : ∃ p q, gridMask (s.registers ⟨vy, hvy⟩ % 32)
          (s.registers ⟨vx, hvx⟩ % 64)
          ((spriteRows s.memory s.index (min n 15)).map bitsOfByte) p q = true ∧
          s1.display p q = true := ⟨p, q, hmq, hd1q⟩
      rw [h152, if_pos hyes]

/-- Witness for C7: a one-byte sprite 0x80 at I = 0, drawn at origin
(V0, V1) = (0, 0) with registers 0 and 1 as coordinates. -/
theorem C7_draw_double_xor_witness :
    (0 : Nat) < 16 ∧ (1 : Nat) < 16 ∧ (0 : Nat) ≠ 15 ∧ (1 : Nat) ≠ 15 ∧
    (∃ s1 s2, execute (.Draw 0 1 1) (fun _ => false) 0
        { S0 with memory := fun i => if i.val = 0 then 128 else 0 } =
          some (s1, some s1.display) ∧
      execute (.Draw 0 1 1) (fun _ => false) 0 s1 = some (s2, some s2.display) ∧
      s2.display = ({ S0 with memory := fun i => if i.val = 0 then 128 else 0 } : ChipState).display ∧
      ((∀ p q, s1.display p q ≠
          ({ S0 with memory := fun i => if i.val = 0 then 128 else 0 } : ChipState).display p q →
          ({ S0 with memory := fun i => if i.val = 0 then 128 else 0 } : ChipState).display p q = false) →
        (∃ p q, s1.display p q ≠
          ({ S0 with memory := fun i => if i.val = 0 then 128 else 0 } : ChipState).display p q) →
          s1.registers 15 = 0 ∧ s2.registers 15 = 1)) :=
  ⟨by decide, by decide, by decide, by decide,
    C7_draw_double_xor 0 1 1 (fun _ => false) 0
      { S0 with memory := fun i => if i.val = 0 then 128 else 0 }
      (by decide) (by decide) (by decide) (by decide)⟩

/-- Counterexample to C7 as stated: a D015 draw with n = 0 touches no
pixel at all.  The first draw hits no already-set pixel (the scratch
state's display is identically false and the draw leaves it unchanged),
yet VF is 0 after the second draw, not 1 — collision needs the sprite
to contribute at least one visible set pixel. -/
theorem C7_draw_empty_sprite_cex :
    ((execute (.Draw 0 1 0) (fun _ => false) 0 S0).map fun p => p.1.display) =
      some S0.display ∧
    ((execute (.Draw 0 1 0) (fun _ => false) 0 S0).map fun p => p.1.registers 15) =
      some 0 ∧
    ((execute (.Draw 0 1 0) (fun _ => false) 0 S0).bind fun p =>
      (execute (.Draw 0 1 0) (fun _ => false) 0 p.1).map fun p2 => p2.1.registers 15) =
      some 0 :=
  ⟨rfl, rfl, rfl⟩
